import Mathlib

/-!
Verification of the SmartDeskMap reservation server (src/index.js).

Shallow embedding conventions:
* Instants (JavaScript Date values) are modelled as `Int` milliseconds since
  the epoch; Date relational comparison is numeric comparison.
* Date parsing (`new Date(s)` possibly yielding an Invalid Date) is modelled
  by a function `String → Option Int` supplied as a parameter, `none`
  standing for an Invalid Date (`isNaN(d)`).
* The result of `Number(req.params.id)` is modelled as `Option Int`, `none`
  standing for NaN; strict equality `t.id === id` is `numEq`, which is false
  for NaN.
* The data file is modelled by a `Catalog` value; `readData`'s input is
  `Option Catalog` (`none` = unreadable/unparsable file) and `writeData`'s
  success is a `writeOk : Bool` flag (on failure the file keeps its old
  contents and the handler, as in the source, proceeds as if it succeeded).
* Reservations are stored in the file as ISO timestamp strings produced by
  `toISOString` and re-parsed on each request; since that round-trip is the
  identity on valid instants, stored reservations carry their instants
  directly.
-/

/-- A stored reservation: `{ username, start, end }` (timestamps modelled as
instants, see header). `startT`/`endT` stand for the source's `start`/`end`
fields (`end` is a Lean keyword). -/
structure Reservation where
  username : String
  startT : Int
  endT : Int
deriving Repr, DecidableEq

/-- A table record from the data file: `{ id, reservations }`. -/
structure Table where
  id : Int
  reservations : List Reservation
deriving Repr, DecidableEq

/-- The persisted data: `{ tables: [...] }`. -/
structure Catalog where
  tables : List Table
deriving Repr, DecidableEq

/-- `overlaps(aStart, aEnd, bStart, bEnd)` from src/index.js lines 62-65:
half-open intervals `[aStart, aEnd)` and `[bStart, bEnd)` overlap iff
`aStart < bEnd && bStart < aEnd`. -/
def overlaps (aStart aEnd bStart bEnd : Int) : Bool :=
  decide (aStart < bEnd) && decide (bStart < aEnd)

/-- JavaScript strict equality `tid === idNum` where `idNum` is the result of
`Number(req.params.id)` (`none` = NaN, which is strictly equal to nothing). -/
def numEq (idNum : Option Int) (tid : Int) : Bool :=
  match idNum with
  | some n => decide (tid = n)
  | none => false

/-- `data.tables.find((t) => t.id === id)`: first table whose id strictly
equals the coerced request id. -/
def findById : List Table → Option Int → Option Table
  | [], _ => none
  | t :: ts, idNum => if numEq idNum t.id then some t else findById ts idNum

/-- The conflict scan of the reserve handler (src/index.js lines 110-112):
`tavolo.reservations.some((r) => overlaps(r.start, r.end, startDate, endDate))`. -/
def hasConflict (t : Table) (s e : Int) : Bool :=
  t.reservations.any fun r => overlaps r.startT r.endT s e

/-- Result of the core of the reserve handler once the request has been
validated: table lookup, conflict scan, and in-place append. `ok` carries the
mutated table (the 201 response body) and the mutated table list. -/
inductive ReserveCoreResult where
  | notFound
  | conflict
  | ok (t : Table) (tables : List Table)
deriving Repr, DecidableEq

/-- Lookup-and-mutate core of the reserve handler (src/index.js lines
105-124): `find` locates the first table with the coerced id, the conflict
scan runs on its reservations, and on success the new reservation is pushed
at the end of that table's list, other tables untouched. -/
def reserveCore : List Table → Option Int → Reservation → ReserveCoreResult
  | [], _, _ => .notFound
  | t :: ts, idNum, r =>
    if numEq idNum t.id then
      if hasConflict t r.startT r.endT then .conflict
      else
        let t' : Table := { t with reservations := t.reservations ++ [r] }
        .ok t' (t' :: ts)
    else
      match reserveCore ts idNum r with
      | .notFound => .notFound
      | .conflict => .conflict
      | .ok t' ts' => .ok t' (t :: ts')

/-- Lookup-and-clear core of the release handler (src/index.js lines
143-148): `find` the table, then `tavolo.reservations = []`. Returns the
cleared table and the new table list, or `none` when the id resolves to no
table. -/
def releaseCore : List Table → Option Int → Option (Table × List Table)
  | [], _ => none
  | t :: ts, idNum =>
    if numEq idNum t.id then
      let t' : Table := { t with reservations := [] }
      some (t', t' :: ts)
    else
      match releaseCore ts idNum with
      | none => none
      | some (t', ts') => some (t', t :: ts')

/-- The cleanup sweep (src/index.js lines 164-170): every table keeps the
reservations with `new Date(r.end) > now` and the dropped counts are summed.
Returns the new table list and the total `removed`. -/
def cleanupTables (now : Int) : List Table → List Table × Nat
  | [] => ([], 0)
  | t :: ts =>
    let kept := t.reservations.filter fun r => decide (now < r.endT)
    let rest := cleanupTables now ts
    ({ t with reservations := kept } :: rest.1,
      (t.reservations.length - kept.length) + rest.2)

/-- `readData()` (src/index.js lines 44-52): parse the data file; on any
read/parse error return `{ tables: [] }`. The argument is the file's parse
result, `none` meaning the file is missing or corrupt. -/
def readData (raw : Option Catalog) : Catalog :=
  match raw with
  | some d => d
  | none => { tables := [] }

/-- `writeData(data)` (src/index.js lines 54-60): attempt to persist; on
failure only log, leaving the stored contents unchanged. `writeOk` models
whether `fs.writeFileSync` succeeds; the returned catalog is the durable
state after the call. -/
def writeData (store : Catalog) (writeOk : Bool) (d : Catalog) : Catalog :=
  if writeOk then d else store

/-- Outcome rendered to the client by the reserve handler. -/
inductive ReserveOutcome where
  | missingFields
  | invalidDates
  | notFound
  | conflict
  | created (t : Table)
deriving Repr, DecidableEq

/-- The timestamp validation of the reserve handler (src/index.js lines
98-103): parse both timestamps; fail when either is an Invalid Date or
`startDate >= endDate`. -/
def parseDates (parse : String → Option Int) (s e : String) : Option (Int × Int) :=
  match parse s, parse e with
  | some sd, some ed => if sd ≥ ed then none else some (sd, ed)
  | _, _ => none

/-- The full reserve handler (src/index.js lines 89-135) over an already
loaded catalog `store`: field presence check (`!username || !start || !end`,
empty strings being falsy), timestamp validation, lookup, conflict scan,
append, then `writeData`. Returns the response outcome and the durable state
after the call. The source sends the 201 response whether or not the write
succeeded. -/
def fullReserve (store : Catalog) (writeOk : Bool) (idNum : Option Int)
    (username startS endS : Option String)
    (parse : String → Option Int) : ReserveOutcome × Catalog :=
  match username, startS, endS with
  | some u, some ss, some es =>
    if u.isEmpty || ss.isEmpty || es.isEmpty then (.missingFields, store)
    else
      match parseDates parse ss es with
      | none => (.invalidDates, store)
      | some (sd, ed) =>
        match reserveCore store.tables idNum { username := u, startT := sd, endT := ed } with
        | .notFound => (.notFound, store)
        | .conflict => (.conflict, store)
        | .ok t' ts' => (.created t', writeData store writeOk { tables := ts' })
  | _, _, _ => (.missingFields, store)

/-- Outcome rendered to the client by the release handler. -/
inductive ReleaseOutcome where
  | notFound
  | released (t : Table)
deriving Repr, DecidableEq

/-- The full release handler (src/index.js lines 140-156): lookup, clear the
table's reservations, `writeData`, respond with the cleared table. The
source responds with the table whether or not the write succeeded. -/
def fullRelease (store : Catalog) (writeOk : Bool) (idNum : Option Int) :
    ReleaseOutcome × Catalog :=
  match releaseCore store.tables idNum with
  | none => (.notFound, store)
  | some (t', ts') => (.released t', writeData store writeOk { tables := ts' })

/-- The full cleanup handler (src/index.js lines 161-177): sweep every table,
`writeData`, respond with the removed count. The source responds
`{ ok: true, removed }` whether or not the write succeeded. -/
def fullCleanup (store : Catalog) (writeOk : Bool) (now : Int) : Nat × Catalog :=
  let swept := cleanupTables now store.tables
  (swept.2, writeData store writeOk { tables := swept.1 })

/-- `GET /api/tables/:id` (src/index.js lines 78-84): lookup by coerced id,
404 (`none`) when absent. -/
def getTableH (store : Catalog) (idNum : Option Int) : Option Table :=
  findById store.tables idNum

/-- `candidate` does not overlap any reservation in `rs` (argument order as
in the conflict scan: existing reservation first). -/
def disjointFromAll (s e : Int) (rs : List Reservation) : Bool :=
  rs.all fun r => !overlaps r.startT r.endT s e

/-- No two distinct reservations in the list overlap. -/
def pairwiseDisjoint : List Reservation → Bool
  | [] => true
  | r :: rs => disjointFromAll r.startT r.endT rs && pairwiseDisjoint rs

/-- The spec's per-table invariant over a whole table list. -/
def catalogInv (tables : List Table) : Bool :=
  tables.all fun t => pairwiseDisjoint t.reservations

/-- The first table whose id strictly equals `idNum` replaced by `t'`,
mirroring the in-place mutation of the object returned by `find`. -/
def replaceFirst : List Table → Option Int → Table → List Table
  | [], _, _ => []
  | t :: ts, idNum, t' =>
    if numEq idNum t.id then t' :: ts else t :: replaceFirst ts idNum t'

/-- A concrete stand-in for JavaScript `Number()` on decimal digit strings,
used to instantiate the coercion parameter in the C10 witness: digit strings
evaluate to their value (leading zeros allowed), anything else to NaN
(`none`). -/
def jsNum (s : String) : Option Int :=
  s.data.foldl (fun acc c =>
    match acc with
    | none => none
    | some n =>
      if '0' ≤ c ∧ c ≤ '9' then some (n * 10 + ((c.toNat : Int) - 48)) else none)
    (some 0)

/-! ## Helper lemmas -/

lemma overlaps_swap (a b c d : Int) : overlaps a b c d = overlaps c d a b := by
  simp [overlaps, Bool.and_comm]

lemma decide_lt_eq_not_decide_le (now e : Int) :
    decide (now < e) = !decide (e ≤ now) := by
  by_cases h : now < e
  · simp [h, Int.not_le.mpr h]
  · simp [h, Int.not_lt.mp h]

lemma all_filter_of_all (q p : Reservation → Bool) (rs : List Reservation)
    (h : rs.all q = true) : (rs.filter p).all q = true := by
  induction rs with
  | nil => rfl
  | cons r rs ih =>
    simp only [List.all_cons, Bool.and_eq_true] at h
    by_cases hp : p r
    · simp [List.filter_cons, hp, h.1, ih h.2]
    · simp [List.filter_cons, hp, ih h.2]

lemma length_filter_not (p : Reservation → Bool) (rs : List Reservation) :
    rs.length - (rs.filter p).length = (rs.filter fun r => !p r).length := by
  induction rs with
  | nil => rfl
  | cons r rs ih =>
    have hle : (rs.filter p).length ≤ rs.length := List.length_filter_le p rs
    by_cases hp : p r
    · simp only [List.filter_cons, hp, if_pos, List.length_cons]
      simpa using ih
    · simp only [List.filter_cons, hp, List.length_cons]
      simp only [Bool.not_eq_true] at hp
      simp [hp]
      omega

lemma pairwiseDisjoint_filter (p : Reservation → Bool) (rs : List Reservation)
    (h : pairwiseDisjoint rs = true) : pairwiseDisjoint (rs.filter p) = true := by
  induction rs with
  | nil => rfl
  | cons r rs ih =>
    simp only [pairwiseDisjoint, Bool.and_eq_true] at h
    by_cases hp : p r
    · simp only [List.filter_cons, hp, if_pos]
      simp only [pairwiseDisjoint, Bool.and_eq_true]
      exact ⟨all_filter_of_all _ p rs h.1, ih h.2⟩
    · simp [List.filter_cons, hp, ih h.2]

lemma pairwiseDisjoint_append (c : Reservation) (rs : List Reservation)
    (h : pairwiseDisjoint rs = true)
    (hc : (rs.all fun ex => !overlaps ex.startT ex.endT c.startT c.endT) = true) :
    pairwiseDisjoint (rs ++ [c]) = true := by
  induction rs with
  | nil => simp [pairwiseDisjoint, disjointFromAll]
  | cons r rs ih =>
    simp only [pairwiseDisjoint, Bool.and_eq_true] at h
    simp only [List.all_cons, Bool.and_eq_true] at hc
    simp only [List.cons_append, pairwiseDisjoint, Bool.and_eq_true]
    refine ⟨?_, ih h.2 hc.2⟩
    have h1 : (rs.all fun x => !overlaps x.startT x.endT r.startT r.endT) = true := by
      simpa [disjointFromAll] using h.1
    have h2 : (!overlaps c.startT c.endT r.startT r.endT) = true := by
      rw [overlaps_swap]; exact hc.1
    simp [disjointFromAll, List.all_append, h1, h2]

lemma reserveCore_preserves (ts : List Table) (idNum : Option Int) (r : Reservation)
    (t' : Table) (ts2 : List Table)
    (hinv : catalogInv ts = true) (h : reserveCore ts idNum r = .ok t' ts2) :
    catalogInv ts2 = true := by
  induction ts generalizing ts2 with
  | nil => simp [reserveCore] at h
  | cons t ts ih =>
    simp only [catalogInv, List.all_cons, Bool.and_eq_true] at hinv
    simp only [reserveCore] at h
    by_cases hid : numEq idNum t.id
    · simp only [hid, if_pos] at h
      by_cases hc : hasConflict t r.startT r.endT
      · simp [hc] at h
      · simp only [hc, if_neg, Bool.false_eq_true, not_false_iff] at h
        cases h
        simp only [catalogInv, List.all_cons, Bool.and_eq_true]
        refine ⟨?_, hinv.2⟩
        refine pairwiseDisjoint_append r t.reservations hinv.1 ?_
        simpa [hasConflict, List.any_eq_true, List.all_eq_true] using hc
    · simp only [hid, Bool.false_eq_true, if_neg, not_false_iff] at h
      cases hrec : reserveCore ts idNum r with
      | notFound => rw [hrec] at h; exact absurd h (by simp)
      | conflict => rw [hrec] at h; exact absurd h (by simp)
      | ok u us =>
        rw [hrec] at h
        cases h
        simp only [catalogInv, List.all_cons, Bool.and_eq_true]
        exact ⟨hinv.1, ih us hinv.2 hrec⟩

lemma releaseCore_preserves (ts : List Table) (idNum : Option Int)
    (t' : Table) (ts2 : List Table)
    (hinv : catalogInv ts = true) (h : releaseCore ts idNum = some (t', ts2)) :
    catalogInv ts2 = true := by
  induction ts generalizing ts2 with
  | nil => simp [releaseCore] at h
  | cons t ts ih =>
    simp only [catalogInv, List.all_cons, Bool.and_eq_true] at hinv
    simp only [releaseCore] at h
    by_cases hid : numEq idNum t.id
    · simp only [hid, if_pos] at h
      cases h
      simp only [catalogInv, List.all_cons, Bool.and_eq_true]
      exact ⟨rfl, hinv.2⟩
    · simp only [hid, Bool.false_eq_true, if_neg, not_false_iff] at h
      cases hrec : releaseCore ts idNum with
      | none => rw [hrec] at h; exact absurd h (by simp)
      | some p =>
        rw [hrec] at h
        cases h
        simp only [catalogInv, List.all_cons, Bool.and_eq_true]
        exact ⟨hinv.1, ih p.2 hinv.2 hrec⟩

lemma cleanupTables_preserves (now : Int) (ts : List Table)
    (hinv : catalogInv ts = true) : catalogInv (cleanupTables now ts).1 = true := by
  induction ts with
  | nil => rfl
  | cons t ts ih =>
    simp only [catalogInv, List.all_cons, Bool.and_eq_true] at hinv
    simp only [cleanupTables, catalogInv, List.all_cons, Bool.and_eq_true]
    exact ⟨pairwiseDisjoint_filter _ _ hinv.1, ih hinv.2⟩

lemma reserveCore_of_findById_none (ts : List Table) (idNum : Option Int)
    (r : Reservation) (h : findById ts idNum = none) :
    reserveCore ts idNum r = .notFound := by
  induction ts with
  | nil => rfl
  | cons t ts ih =>
    simp only [findById] at h
    by_cases hid : numEq idNum t.id
    · simp [hid] at h
    · simp only [hid, Bool.false_eq_true, if_neg, not_false_iff] at h
      simp [reserveCore, hid, ih h]

lemma releaseCore_of_findById_none (ts : List Table) (idNum : Option Int)
    (h : findById ts idNum = none) : releaseCore ts idNum = none := by
  induction ts with
  | nil => rfl
  | cons t ts ih =>
    simp only [findById] at h
    by_cases hid : numEq idNum t.id
    · simp [hid] at h
    · simp only [hid, Bool.false_eq_true, if_neg, not_false_iff] at h
      simp [releaseCore, hid, ih h]

lemma fullReserve_snd_of_findById_none (store : Catalog) (writeOk : Bool)
    (idNum : Option Int) (username startS endS : Option String)
    (parse : String → Option Int) (h : findById store.tables idNum = none) :
    (fullReserve store writeOk idNum username startS endS parse).2 = store := by
  cases username with
  | none => rfl
  | some u =>
    cases startS with
    | none => rfl
    | some ss =>
      cases endS with
      | none => rfl
      | some es =>
        simp only [fullReserve]
        by_cases hm : u.isEmpty || ss.isEmpty || es.isEmpty
        · simp [hm]
        · simp only [hm, Bool.false_eq_true, if_neg, not_false_iff]
          cases hp : parseDates parse ss es with
          | none => rfl
          | some p =>
            simp only []
            rw [reserveCore_of_findById_none store.tables idNum _ h]

lemma fullReserve_fst_of_findById_none (store : Catalog) (writeOk : Bool)
    (idNum : Option Int) (u ss es : String) (sd ed : Int)
    (parse : String → Option Int) (h : findById store.tables idNum = none)
    (hu : u.isEmpty = false) (hs : ss.isEmpty = false) (he : es.isEmpty = false)
    (hps : parse ss = some sd) (hpe : parse es = some ed) (hlt : sd < ed) :
    (fullReserve store writeOk idNum (some u) (some ss) (some es) parse).1
      = .notFound := by
  simp only [fullReserve, hu, hs, he, Bool.or_self, Bool.false_eq_true, if_neg,
    not_false_iff, Bool.or_false]
  have hp : parseDates parse ss es = some (sd, ed) := by
    simp [parseDates, hps, hpe, Int.not_le.mpr hlt]
  rw [hp]
  simp [reserveCore_of_findById_none store.tables idNum ⟨u, sd, ed⟩ h]

/-! ## Claim theorems -/

/-- C9: for all intervals `a` and `b`, `overlaps(a, b) == overlaps(b, a)` —
the conflict predicate is commutative. -/
theorem overlaps_commutative (aStart aEnd bStart bEnd : Int) :
    overlaps aStart aEnd bStart bEnd = overlaps bStart bEnd aStart aEnd := by
  simp [overlaps, Bool.and_comm]

/-- C3: `overlaps(a, b)` is true iff `a.start < b.end` and `b.start < a.end`;
back-to-back half-open intervals do not overlap, so a reserve on a table
already holding `[t0, t1)` succeeds with candidate `[t1, t2)` and with
candidate `[tm, t0)`. -/
theorem overlaps_iff_strict_and_back_to_back :
    (∀ aStart aEnd bStart bEnd : Int,
      overlaps aStart aEnd bStart bEnd = true ↔ aStart < bEnd ∧ bStart < aEnd) ∧
    (∀ t0 t1 t2 : Int, overlaps t0 t1 t1 t2 = false) ∧
    (∀ (id : Int) (u u' : String) (t0 t1 t2 : Int),
      reserveCore [⟨id, [⟨u, t0, t1⟩]⟩] (some id) ⟨u', t1, t2⟩
        = .ok ⟨id, [⟨u, t0, t1⟩, ⟨u', t1, t2⟩]⟩
            [⟨id, [⟨u, t0, t1⟩, ⟨u', t1, t2⟩]⟩]) ∧
    (∀ (id : Int) (u u' : String) (tm t0 t1 : Int),
      reserveCore [⟨id, [⟨u, t0, t1⟩]⟩] (some id) ⟨u', tm, t0⟩
        = .ok ⟨id, [⟨u, t0, t1⟩, ⟨u', tm, t0⟩]⟩
            [⟨id, [⟨u, t0, t1⟩, ⟨u', tm, t0⟩]⟩]) := by
  refine ⟨?_, ?_, ?_, ?_⟩
  · intro aStart aEnd bStart bEnd
    simp [overlaps]
  · intro t0 t1 t2
    simp [overlaps]
  · intro id u u' t0 t1 t2
    simp [reserveCore, numEq, hasConflict, overlaps]
  · intro id u u' tm t0 t1
    simp [reserveCore, numEq, hasConflict, overlaps]

/-- C7: when the backing file cannot be read or parsed, `readData` returns
the empty catalog rather than propagating the failure, and every lookup by
id on that catalog yields no table (404). -/
theorem readData_failure_empty :
    readData none = { tables := [] } ∧
    ∀ idNum : Option Int, getTableH (readData none) idNum = none := by
  exact ⟨rfl, fun idNum => rfl⟩

/-- C4: the cleanup sweep removes from every table exactly the reservations
with `end <= now` (boundary inclusive), keeps the remainder unchanged and in
their original relative order, and returns the total number removed summed
over all tables. -/
theorem cleanup_removes_exactly_expired (now : Int) (ts : List Table) :
    (cleanupTables now ts).1 = ts.map (fun t =>
      { t with reservations := t.reservations.filter fun r => !decide (r.endT ≤ now) }) ∧
    (cleanupTables now ts).2 = (ts.map fun t =>
      (t.reservations.filter fun r => decide (r.endT ≤ now)).length).sum := by
  have hfun : (fun r : Reservation => decide (now < r.endT))
      = fun r : Reservation => !decide (r.endT ≤ now) := by
    funext r; exact decide_lt_eq_not_decide_le now r.endT
  induction ts with
  | nil => exact ⟨rfl, rfl⟩
  | cons t ts ih =>
    constructor
    · show ({ t with reservations := t.reservations.filter fun r => decide (now < r.endT) }
          :: (cleanupTables now ts).1) = _
      rw [hfun, ih.1, List.map_cons]
    · show (t.reservations.length
            - (t.reservations.filter fun r => decide (now < r.endT)).length)
          + (cleanupTables now ts).2 = _
      rw [hfun, ih.2,
        length_filter_not (fun r => !decide (r.endT ≤ now)) t.reservations]
      simp [List.sum_cons, Bool.not_not]

/-- C5 (code gap): when the write to the backing store fails, every mutating
handler of the source still reports success — reserve answers 201 with the
updated table, release answers the cleared table, cleanup answers
`{ ok, removed }` — while the durable state is left unchanged; no
StoreUnavailable-style failure is surfaced. -/
theorem write_failure_still_reports_success :
    (fullReserve ⟨[⟨1, []⟩]⟩ false (some 1) (some "alice") (some "a") (some "bb")
        (fun s => some (s.length : Int))).1
      = .created ⟨1, [⟨"alice", 1, 2⟩]⟩ ∧
    (fullReserve ⟨[⟨1, []⟩]⟩ false (some 1) (some "alice") (some "a") (some "bb")
        (fun s => some (s.length : Int))).2 = ⟨[⟨1, []⟩]⟩ ∧
    (fullRelease ⟨[⟨1, [⟨"a", 0, 10⟩]⟩]⟩ false (some 1)).1 = .released ⟨1, []⟩ ∧
    (fullRelease ⟨[⟨1, [⟨"a", 0, 10⟩]⟩]⟩ false (some 1)).2
      = ⟨[⟨1, [⟨"a", 0, 10⟩]⟩]⟩ ∧
    (fullCleanup ⟨[⟨1, [⟨"a", 0, 10⟩]⟩]⟩ false 20).1 = 1 ∧
    (fullCleanup ⟨[⟨1, [⟨"a", 0, 10⟩]⟩]⟩ false 20).2
      = ⟨[⟨1, [⟨"a", 0, 10⟩]⟩]⟩ := by
  refine ⟨?_, ?_, ?_, ?_, ?_, ?_⟩ <;> rfl

lemma fullReserve_snd_inv (store : Catalog) (writeOk : Bool) (idNum : Option Int)
    (username startS endS : Option String) (parse : String → Option Int)
    (hinv : catalogInv store.tables = true) :
    catalogInv (fullReserve store writeOk idNum username startS
      endS parse).2.tables = true := by
  cases username with
  | none => exact hinv
  | some u =>
    cases startS with
    | none => exact hinv
    | some ss =>
      cases endS with
      | none => exact hinv
      | some es =>
        simp only [fullReserve]
        by_cases hm : u.isEmpty || ss.isEmpty || es.isEmpty
        · simpa [hm] using hinv
        · simp only [hm, Bool.false_eq_true, if_neg, not_false_iff]
          cases hp : parseDates parse ss es with
          | none => exact hinv
          | some p =>
            obtain ⟨sd, ed⟩ := p
            simp only []
            cases hr : reserveCore store.tables idNum ⟨u, sd, ed⟩ with
            | notFound => exact hinv
            | conflict => exact hinv
            | ok t' ts' =>
              cases writeOk with
              | false => simpa [writeData] using hinv
              | true =>
                simpa [writeData] using
                  reserveCore_preserves store.tables idNum ⟨u, sd, ed⟩ t' ts' hinv hr

lemma fullRelease_snd_inv (store : Catalog) (writeOk : Bool) (idNum : Option Int)
    (hinv : catalogInv store.tables = true) :
    catalogInv (fullRelease store writeOk idNum).2.tables = true := by
  simp only [fullRelease]
  cases hr : releaseCore store.tables idNum with
  | none => exact hinv
  | some p =>
    obtain ⟨t', ts'⟩ := p
    cases writeOk with
    | false => simpa [writeData] using hinv
    | true =>
      simpa [writeData] using
        releaseCore_preserves store.tables idNum t' ts' hinv hr

lemma fullCleanup_snd_inv (store : Catalog) (writeOk : Bool) (now : Int)
    (hinv : catalogInv store.tables = true) :
    catalogInv (fullCleanup store writeOk now).2.tables = true := by
  simp only [fullCleanup]
  cases writeOk with
  | false => simpa [writeData] using hinv
  | true => simpa [writeData] using cleanupTables_preserves now store.tables hinv

/-- C2: the per-table non-overlap invariant is preserved by every core
operation: a successful reserve, a release and the cleanup sweep each turn an
invariant-satisfying table list into an invariant-satisfying one, and the
durable state left behind by each of the three full handlers satisfies the
invariant whenever the loaded state did. -/
theorem core_ops_preserve_invariant (store : Catalog)
    (hinv : catalogInv store.tables = true) :
    (∀ (idNum : Option Int) (r : Reservation) (t' : Table) (ts' : List Table),
      reserveCore store.tables idNum r = .ok t' ts' → catalogInv ts' = true) ∧
    (∀ (idNum : Option Int) (t' : Table) (ts' : List Table),
      releaseCore store.tables idNum = some (t', ts') → catalogInv ts' = true) ∧
    (∀ now : Int, catalogInv (cleanupTables now store.tables).1 = true) ∧
    (∀ (writeOk : Bool) (idNum : Option Int) (username startS endS : Option String)
      (parse : String → Option Int),
      catalogInv (fullReserve store writeOk idNum username startS
        endS parse).2.tables = true) ∧
    (∀ (writeOk : Bool) (idNum : Option Int),
      catalogInv (fullRelease store writeOk idNum).2.tables = true) ∧
    (∀ (writeOk : Bool) (now : Int),
      catalogInv (fullCleanup store writeOk now).2.tables = true) :=
  ⟨fun idNum r t' ts' h => reserveCore_preserves store.tables idNum r t' ts' hinv h,
   fun idNum t' ts' h => releaseCore_preserves store.tables idNum t' ts' hinv h,
   fun now => cleanupTables_preserves now store.tables hinv,
   fun writeOk idNum username startS endS parse =>
     fullReserve_snd_inv store writeOk idNum username startS endS parse hinv,
   fun writeOk idNum => fullRelease_snd_inv store writeOk idNum hinv,
   fun writeOk now => fullCleanup_snd_inv store writeOk now hinv⟩

/-- Witness for C2: a concrete invariant-satisfying catalog stays
invariant-satisfying after a successful reserve. -/
theorem core_ops_preserve_invariant_witness :
    catalogInv [⟨1, [⟨"a", 0, 10⟩]⟩] = true ∧
    catalogInv [⟨1, [⟨"a", 0, 10⟩, ⟨"b", 10, 20⟩]⟩] = true := by
  have h := core_ops_preserve_invariant ⟨[⟨1, [⟨"a", 0, 10⟩]⟩]⟩ (by decide)
  exact ⟨by decide, h.1 (some 1) ⟨"b", 10, 20⟩ _ _ rfl⟩

lemma hasConflict_true_iff (t : Table) (s e : Int) :
    hasConflict t s e = true ↔
      ∃ ex ∈ t.reservations, overlaps ex.startT ex.endT s e = true := by
  simp [hasConflict, List.any_eq_true]

lemma hasConflict_false_of_all (t : Table) (s e : Int)
    (h : ∀ ex ∈ t.reservations, overlaps ex.startT ex.endT s e = false) :
    hasConflict t s e = false := by
  cases hc : hasConflict t s e with
  | false => rfl
  | true =>
    obtain ⟨ex, hmem, hov⟩ := (hasConflict_true_iff t s e).mp hc
    rw [h ex hmem] at hov
    exact absurd hov (by simp)

/-- C1: with the target table resolved, the reserve core answers Conflict
exactly when some existing reservation of that table overlaps the candidate;
when none does, it appends the new reservation at the end of that table's
sequence, leaving the existing reservations and all other tables unchanged,
and returns the updated table. -/
theorem reserve_conflict_iff_else_appends (tables : List Table) (idNum : Option Int)
    (r : Reservation) (t : Table) (hfind : findById tables idNum = some t) :
    (reserveCore tables idNum r = .conflict ↔
      ∃ ex ∈ t.reservations, overlaps ex.startT ex.endT r.startT r.endT = true) ∧
    ((∀ ex ∈ t.reservations, overlaps ex.startT ex.endT r.startT r.endT = false) →
      reserveCore tables idNum r
        = .ok { t with reservations := t.reservations ++ [r] }
            (replaceFirst tables idNum
              { t with reservations := t.reservations ++ [r] })) := by
  induction tables with
  | nil => simp [findById] at hfind
  | cons t0 ts ih =>
    simp only [findById] at hfind
    by_cases hid : numEq idNum t0.id
    · simp only [hid, if_pos, Option.some.injEq] at hfind
      subst hfind
      by_cases hc : hasConflict t0 r.startT r.endT
      · constructor
        · exact ⟨fun _ => (hasConflict_true_iff t0 r.startT r.endT).mp hc,
            fun _ => by simp [reserveCore, hid, hc]⟩
        · intro hall
          rw [hasConflict_false_of_all t0 r.startT r.endT hall] at hc
          exact absurd hc (by simp)
      · constructor
        · constructor
          · intro hcontra
            simp [reserveCore, hid, hc] at hcontra
          · intro hex
            rw [(hasConflict_true_iff t0 r.startT r.endT).mpr hex] at hc
            exact absurd rfl hc
        · intro _
          simp only [Bool.not_eq_true] at hc
          simp [reserveCore, replaceFirst, hid, hc]
    · simp only [hid, Bool.false_eq_true, if_neg, not_false_iff] at hfind
      have ihh := ih hfind
      have hred : reserveCore (t0 :: ts) idNum r
          = match reserveCore ts idNum r with
            | .notFound => .notFound
            | .conflict => .conflict
            | .ok t' ts' => .ok t' (t0 :: ts') := by
        simp [reserveCore, hid]
      have hrep : replaceFirst (t0 :: ts) idNum
            { t with reservations := t.reservations ++ [r] }
          = t0 :: replaceFirst ts idNum
              { t with reservations := t.reservations ++ [r] } := by
        simp [replaceFirst, hid]
      cases hrec : reserveCore ts idNum r with
      | notFound =>
        constructor
        · rw [hred, hrec]
          constructor
          · intro hcontra; exact absurd hcontra (by simp)
          · intro hex
            rw [ihh.1.mpr hex] at hrec
            exact absurd hrec (by simp)
        · intro hall
          rw [ihh.2 hall] at hrec
          exact absurd hrec (by simp)
      | conflict =>
        constructor
        · rw [hred, hrec]
          exact ⟨fun _ => ihh.1.mp hrec, fun _ => rfl⟩
        · intro hall
          rw [ihh.2 hall] at hrec
          exact absurd hrec (by simp)
      | ok u us =>
        constructor
        · rw [hred, hrec]
          constructor
          · intro hcontra; exact absurd hcontra (by simp)
          · intro hex
            rw [ihh.1.mpr hex] at hrec
            exact absurd hrec (by simp)
        · intro hall
          rw [hred, hrec, hrep]
          have := ihh.2 hall
          rw [hrec] at this
          injection this with h1 h2
          rw [h1, h2]

/-- Witness for C1: on a table holding `[0, 10)`, reserving `[10, 20)` finds
no overlap and appends at the end. -/
theorem reserve_conflict_iff_else_appends_witness :
    reserveCore [⟨1, [⟨"a", 0, 10⟩]⟩] (some 1) ⟨"b", 10, 20⟩
      = .ok ⟨1, [⟨"a", 0, 10⟩, ⟨"b", 10, 20⟩]⟩
          (replaceFirst [⟨1, [⟨"a", 0, 10⟩]⟩] (some 1)
            ⟨1, [⟨"a", 0, 10⟩, ⟨"b", 10, 20⟩]⟩) := by
  have h := reserve_conflict_iff_else_appends [⟨1, [⟨"a", 0, 10⟩]⟩] (some 1)
    ⟨"b", 10, 20⟩ ⟨1, [⟨"a", 0, 10⟩]⟩ rfl
  exact h.2 (by decide)

/-- C8: reserving on an id that resolves to no table answers NotFound and
leaves the durable state exactly as it was, whatever the rest of the request
looks like (the NotFound answer itself is stated for an otherwise valid
request, since the source rejects malformed bodies before the lookup). -/
theorem reserve_nonexistent_notFound_no_mutation (store : Catalog) (writeOk : Bool)
    (idNum : Option Int) (username startS endS : Option String)
    (parse : String → Option Int)
    (h : findById store.tables idNum = none) :
    (fullReserve store writeOk idNum username startS endS parse).2 = store ∧
    (∀ (u ss es : String) (sd ed : Int),
      username = some u → startS = some ss → endS = some es →
      u.isEmpty = false → ss.isEmpty = false → es.isEmpty = false →
      parse ss = some sd → parse es = some ed → sd < ed →
      (fullReserve store writeOk idNum username startS endS parse).1
        = .notFound) := by
  refine ⟨fullReserve_snd_of_findById_none store writeOk idNum username startS
    endS parse h, ?_⟩
  rintro u ss es sd ed rfl rfl rfl hu hs he hps hpe hlt
  exact fullReserve_fst_of_findById_none store writeOk idNum u ss es sd ed parse
    h hu hs he hps hpe hlt

/-- Witness for C8: a valid request against a catalog holding only table 1,
addressed to id 2, answers NotFound and leaves the store unchanged. -/
theorem reserve_nonexistent_witness :
    (fullReserve ⟨[⟨1, []⟩]⟩ true (some 2) (some "u") (some "a") (some "bb")
        (fun s => some (s.length : Int))).2 = ⟨[⟨1, []⟩]⟩ ∧
    (fullReserve ⟨[⟨1, []⟩]⟩ true (some 2) (some "u") (some "a") (some "bb")
        (fun s => some (s.length : Int))).1 = .notFound := by
  have h := reserve_nonexistent_notFound_no_mutation ⟨[⟨1, []⟩]⟩ true (some 2)
    (some "u") (some "a") (some "bb") (fun s => some (s.length : Int)) rfl
  exact ⟨h.1, h.2 "u" "a" "bb" 1 2 rfl rfl rfl rfl rfl rfl rfl rfl (by decide)⟩

/-- C6: timestamp validation fails exactly when a timestamp does not parse or
`start >= end`; zero-length and reversed intervals are rejected; and a
request with an invalid interval is answered InvalidInterval with the store
untouched, so no reservation is admitted with such an interval. -/
theorem interval_validation_exact (parse : String → Option Int) (ss es : String) :
    (parseDates parse ss es = none ↔
      parse ss = none ∨ parse es = none ∨
        ∃ sd ed, parse ss = some sd ∧ parse es = some ed ∧ ed ≤ sd) ∧
    (∀ t : Int, parse ss = some t → parse es = some t →
      parseDates parse ss es = none) ∧
    (∀ t1 t2 : Int, t1 < t2 → parse ss = some t2 → parse es = some t1 →
      parseDates parse ss es = none) ∧
    (∀ (store : Catalog) (writeOk : Bool) (idNum : Option Int) (u : String),
      u.isEmpty = false → ss.isEmpty = false → es.isEmpty = false →
      parseDates parse ss es = none →
      fullReserve store writeOk idNum (some u) (some ss) (some es) parse
        = (.invalidDates, store)) := by
  refine ⟨?_, ?_, ?_, ?_⟩
  · cases hs : parse ss with
    | none => simp [parseDates, hs]
    | some sd =>
      cases he : parse es with
      | none => simp [parseDates, hs, he]
      | some ed =>
        by_cases hge : ed ≤ sd
        · simp [parseDates, hs, he, hge]
        · simp [parseDates, hs, he, hge]
  · intro t h1 h2
    simp [parseDates, h1, h2]
  · intro t1 t2 hlt h1 h2
    simp [parseDates, h1, h2, le_of_lt hlt]
  · intro store writeOk idNum u hu hs he hp
    simp [fullReserve, hu, hs, he, hp]

/-- Witness for C6: with length-of-string parsing, the reversed interval
from "aa" (instant 2) to "a" (instant 1) is rejected and the reserve request
is answered InvalidInterval with the store unchanged. -/
theorem interval_validation_witness :
    parseDates (fun s => some (s.length : Int)) "aa" "a" = none ∧
    fullReserve ⟨[⟨1, []⟩]⟩ true (some 1) (some "u") (some "aa") (some "a")
        (fun s => some (s.length : Int)) = (.invalidDates, ⟨[⟨1, []⟩]⟩) := by
  have h := interval_validation_exact (fun s => some (s.length : Int)) "aa" "a"
  have hn := h.2.2.1 1 2 (by decide) rfl rfl
  exact ⟨hn, h.2.2.2 ⟨[⟨1, []⟩]⟩ true (some 1) "u" rfl rfl rfl hn⟩

lemma findById_eq_none (ts : List Table) (idNum : Option Int)
    (h : idNum = none ∨ ∀ t ∈ ts, some t.id ≠ idNum) :
    findById ts idNum = none := by
  induction ts with
  | nil => rfl
  | cons t ts ih =>
    have hid : numEq idNum t.id = false := by
      cases h with
      | inl h => simp [numEq, h]
      | inr h =>
        cases idNum with
        | none => rfl
        | some n =>
          have := h t (List.mem_cons_self t ts)
          simp only [ne_eq, Option.some.injEq] at this
          simp [numEq, this]
    simp only [findById, hid, Bool.false_eq_true, if_neg, not_false_iff]
    apply ih
    cases h with
    | inl h => exact Or.inl h
    | inr h => exact Or.inr fun t' ht' => h t' (List.mem_cons_of_mem t ht')

/-- C10: table lookup goes through numeric coercion of the id string and
strict equality with each stored id: an id string coercing to NaN, or to a
number matching no table, makes getTable, release and (on an otherwise valid
body) reserve answer NotFound; and two id strings coercing to the same
number address the same table in all three handlers. -/
theorem id_numeric_coercion_lookup (coerce : String → Option Int)
    (store : Catalog) (s1 s2 : String) (writeOk : Bool) :
    ((coerce s1 = none ∨ ∀ t ∈ store.tables, some t.id ≠ coerce s1) →
      getTableH store (coerce s1) = none ∧
      (fullRelease store writeOk (coerce s1)).1 = .notFound ∧
      (∀ (u ss es : String) (sd ed : Int) (parse : String → Option Int),
        u.isEmpty = false → ss.isEmpty = false → es.isEmpty = false →
        parse ss = some sd → parse es = some ed → sd < ed →
        (fullReserve store writeOk (coerce s1) (some u) (some ss) (some es)
          parse).1 = .notFound)) ∧
    (coerce s1 = coerce s2 →
      getTableH store (coerce s1) = getTableH store (coerce s2) ∧
      fullRelease store writeOk (coerce s1) = fullRelease store writeOk (coerce s2) ∧
      ∀ username startS endS parse,
        fullReserve store writeOk (coerce s1) username startS endS parse
          = fullReserve store writeOk (coerce s2) username startS endS parse) := by
  constructor
  · intro h
    have hf : findById store.tables (coerce s1) = none :=
      findById_eq_none store.tables (coerce s1) h
    refine ⟨hf, ?_, ?_⟩
    · simp [fullRelease, releaseCore_of_findById_none store.tables (coerce s1) hf]
    · intro u ss es sd ed parse hu hs he hps hpe hlt
      exact fullReserve_fst_of_findById_none store writeOk (coerce s1) u ss es
        sd ed parse hf hu hs he hps hpe hlt
  · intro h
    rw [h]
    exact ⟨rfl, rfl, fun _ _ _ _ => rfl⟩

/-- Witness for C10: under the concrete coercion `jsNum`, the id string "x"
(NaN) finds no table, and "1" and "01" coerce to the same number and address
the same table. -/
theorem id_numeric_coercion_witness :
    getTableH ⟨[⟨1, []⟩]⟩ (jsNum "x") = none ∧
    (fullRelease ⟨[⟨1, []⟩]⟩ true (jsNum "x")).1 = .notFound ∧
    getTableH ⟨[⟨1, []⟩]⟩ (jsNum "1")
      = getTableH ⟨[⟨1, []⟩]⟩ (jsNum "01") := by
  have h1 := (id_numeric_coercion_lookup jsNum ⟨[⟨1, []⟩]⟩ "x" "x"
    true).1 (Or.inl (by decide))
  have h2 := (id_numeric_coercion_lookup jsNum ⟨[⟨1, []⟩]⟩ "1" "01"
    true).2 (by decide)
  exact ⟨h1.1, h1.2.1, h2.1⟩
